import Mathlib

/-!
Shallow embedding of the genetic-algorithm engine
(`src/genetic_algorithm.rs`) and proofs of the specification claims.

Randomness model: every call to `rand::rng().random_range(..)` in the Rust
source is replaced by an explicit oracle argument (a function from call
coordinates to the drawn number).  A draw from `random_range(0..n)` is an
oracle value assumed, where it matters, to lie in `[0, n)`; a draw from
`random_range(0..=1)` is an oracle value whose only relevant property is
whether it equals `0`.  Machine integers (`usize`, `u8`, `u64`) are embedded
as `Nat`; the quantities involved (sizes, indices, percentages, fitness)
never overflow in the modelled operations, which perform no arithmetic
beyond bounded subtraction, division and comparison.
-/

namespace GA

/-- Constant `MAX_MUTATION_CHANCE: u8 = 100` from the source. -/
def MAX_MUTATION_CHANCE : Nat := 100

/-- Struct `Individual`: gene length, boolean gene vector, fitness score
(`u64`, embedded as `Nat`). -/
structure Individual where
  gene_length : Nat
  genes : List Bool
  fitness : Nat
deriving Repr, DecidableEq

instance : Inhabited Individual := ⟨⟨0, [], 0⟩⟩

/-- Loop body of `Individual::randomize`: at index `i` the source draws
`random_range(0..=1)` and sets `genes[i] = false` when the draw is `0`
(the vector was pre-filled with `true`). -/
def randStep (rand : Nat → Nat) (a : Individual) (i : Nat) : Individual :=
  if rand i = 0 then { a with genes := a.genes.set i false } else a

/-- `Individual::randomize`: `self.genes = vec![true; self.gene_length]`,
then the loop `for i in 0..self.gene_length` conditionally clears each
position.  `rand i` is the draw of iteration `i`. -/
def Individual.randomize (ind : Individual) (rand : Nat → Nat) : Individual :=
  (List.range ind.gene_length).foldl (randStep rand)
    { ind with genes := List.replicate ind.gene_length true }

/-- `Individual::get_genes`: returns a copy of the gene vector. -/
def Individual.get_genes (ind : Individual) : List Bool := ind.genes

/-- `Individual::set_fitness`. -/
def Individual.set_fitness (ind : Individual) (fitness : Nat) : Individual :=
  { ind with fitness := fitness }

/-- `Individual::mutate_at_index(index, mutation_chance)`: draws
`rand = random_range(0..100)` (the oracle argument `rand`, in `[0,100)`)
and flips `genes[index]` when `rand < mutation_chance`.  The source indexes
`self.genes[index]` directly (panicking out of range); the embedding is
total via `List.set` / `List.getD`, and the claims about this function
carry the in-range precondition. -/
def Individual.mutate_at_index (ind : Individual) (index mutation_chance rand : Nat) :
    Individual :=
  if rand < mutation_chance then
    { ind with genes := ind.genes.set index (!(ind.genes.getD index false)) }
  else ind

/-- `impl Ord for Individual`: `self.fitness.cmp(&other.fitness)`. -/
def Individual.cmp (a b : Individual) : Ordering := compare a.fitness b.fitness

/-- `impl PartialEq for Individual`: `self.fitness == other.fitness`. -/
def Individual.beq (a b : Individual) : Bool := a.fitness == b.fitness

/-- `impl PartialOrd for Individual`: `Some(self.cmp(other))`
(Rust `partial_cmp`). -/
def Individual.pcmp (a b : Individual) : Option Ordering := some (Individual.cmp a b)

/-- `impl Display for Individual`: one character per gene (`'1'`/`'0'`),
then the fitness. -/
def Individual.display (ind : Individual) : String :=
  "Genes: " ++
    String.mk ((List.range ind.gene_length).map
      (fun i => if ind.genes.getD i false then '1' else '0')) ++
    " Fitness: " ++ toString ind.fitness

/-- Struct `Population`. -/
structure Population where
  individuals : List Individual
  population_size : Nat
  parent_count : Nat
  mutation_chance : Nat
  multi_threaded : Bool
deriving Repr, DecidableEq

/-- The comparator passed to `sort_by` in `next_generation` and `print` is
`|a, b| b.cmp(a)`; Rust's stable sort arranges the list ascending with
respect to it, i.e. consecutive `a`, `b` satisfy `b.cmp(a) ≠ Greater`. -/
def fitGe (a b : Individual) : Prop := Individual.cmp b a ≠ Ordering.gt

instance : DecidableRel fitGe :=
  fun a b => inferInstanceAs (Decidable (Individual.cmp b a ≠ Ordering.gt))

/-- `self.individuals.sort_by(|a,b| b.cmp(a))`: a stable sort descending by
fitness.  The spec (§4.2) leaves tie order unspecified, so any sort by this
comparator is a faithful model; we use `List.insertionSort` because it
computes by kernel reduction. -/
def sortDesc (l : List Individual) : List Individual :=
  l.insertionSort fitGe

/-- Loop body of `Population::create_child` at gene position `i`: draw a
parent index (`pickR i`, modelling `random_range(0..parents.len())`), copy
that parent's gene at `i`, then immediately call `mutate_at_index` on that
position with mutation draw `mutR i`. -/
def childStep (parents : List Individual) (mutation_chance : Nat)
    (pickR mutR : Nat → Nat) (ind : Individual) (i : Nat) : Individual :=
  Individual.mutate_at_index
    { ind with genes := ind.genes.set i ((parents.getD (pickR i) default).genes.getD i false) }
    i mutation_chance (mutR i)

/-- `Population::create_child(parents)`: a fresh individual with
`gene_length = parents[0].gene_length`, genes pre-filled `false`,
fitness `0`, then the per-position copy-and-mutate loop.  (`parents[0]`
panics on an empty slice in Rust; `headI` with claims carrying the
nonemptiness precondition.)  The identical inlined loop body in the
multi-threaded branch of `next_generation` is modelled by this same
function. -/
def Population.create_child (p : Population) (parents : List Individual)
    (pickR mutR : Nat → Nat) : Individual :=
  (List.range parents.headI.gene_length).foldl
    (childStep parents p.mutation_chance pickR mutR)
    { gene_length := parents.headI.gene_length,
      genes := List.replicate parents.headI.gene_length false,
      fitness := 0 }

/-- Worker batch sizes in the multi-threaded branch of `next_generation`.
Mirrors the loop: `ammount_left` starts at the number of children needed;
each worker takes `end = min(ammount_left, chunk_size)`; after the
subtraction, the last worker (`i + 1 == thread_count`) additionally absorbs
any positive remainder.  Arguments: the chunk size, the children still
unassigned, and the number of workers left to schedule. -/
def batchSizes (chunk_size : Nat) : Nat → Nat → List Nat
  | _, 0 => []
  | remaining, tc_left + 1 =>
    let e := if remaining < chunk_size then remaining else chunk_size
    let rem2 := remaining - e
    if tc_left = 0 then
      [if rem2 > 0 then e + rem2 else e]
    else
      e :: batchSizes chunk_size rem2 tc_left

/-- Modelled from the spec (§5), for comparison with the code: the spec
says `children_needed` is divided into `children_needed / worker_count`
children per worker (integer division) with any remainder added to the
last worker's batch. -/
def batchSizesSpec (children thread_count : Nat) : List Nat :=
  List.replicate (thread_count - 1) (children / thread_count) ++
    [children / thread_count + children % thread_count]

/-- `Population::next_generation`: sort descending by fitness, truncate to
`parent_count` (the elite set), then create `population_size - len`
children, sequentially or in parallel per the `multi_threaded` flag, and
append them.

`cpus` models `num_cpus::get()` (at least 1 on real hardware).  The
oracles are indexed by worker (`0` in the sequential branch, `w + 1` for
parallel worker `w`), child number within the worker, and gene position.
In the real parallel code the children enter the shared mutex-guarded
vector in timing-dependent order; this model lists them worker-major.  The
spec itself (§5) declares the children order not guaranteed, and every
claim proved below about the children segment is insensitive to its
order. -/
def Population.next_generation (p : Population) (cpus : Nat)
    (pickR mutR : Nat → Nat → Nat → Nat) : Population :=
  let elites := (sortDesc p.individuals).take p.parent_count
  if !p.multi_threaded then
    let next_gen_individuals := (List.range (p.population_size - elites.length)).map
      (fun c => p.create_child elites (pickR 0 c) (mutR 0 c))
    { p with individuals := elites ++ next_gen_individuals }
  else
    let thread_count := if cpus ≥ p.population_size then p.population_size else cpus
    let chunk_size := p.population_size / thread_count
    let next_gen_individuals :=
      ((batchSizes chunk_size (p.population_size - elites.length) thread_count).enum).flatMap
        (fun wb => (List.range wb.2).map
          (fun c => p.create_child elites (pickR (wb.1 + 1) c) (mutR (wb.1 + 1) c)))
    { p with individuals := elites ++ next_gen_individuals }

/-- `impl Display for Population`: the one-line summary printed first by
`print`. -/
def Population.summaryLine (p : Population) : String :=
  "population_size: " ++ toString p.population_size ++
    " parent_count: " ++ toString p.parent_count ++
    " mutation_chance: " ++ toString p.mutation_chance

/-- `Population::print(count)`: sorts in place, clamps `count` to
`population_size`, prints the summary and the first `count` individuals.
The embedding returns the resulting state together with the printed
lines. -/
def Population.print (p : Population) (count : Nat) : Population × List String :=
  let sorted := sortDesc p.individuals
  let c := if count > p.population_size then p.population_size else count
  ({ p with individuals := sorted },
    p.summaryLine :: (List.range c).map (fun i => (sorted.getD i default).display))

/-- `Population::get_population_size`. -/
def Population.get_population_size (p : Population) : Nat := p.population_size

/-- Loop body of `Population::randomize_population`: randomize the
individual at index `i` in place. -/
def popRandStep (rand : Nat → Nat → Nat) (l : List Individual) (i : Nat) : List Individual :=
  l.set i ((l.getD i default).randomize (rand i))

/-- `Population::randomize_population`: `for i in 0..population_size`,
randomize `individuals[i]`.  `rand i` is the draw stream of iteration
`i`. -/
def Population.randomize_population (p : Population) (rand : Nat → Nat → Nat) : Population :=
  { p with individuals := (List.range p.population_size).foldl (popRandStep rand) p.individuals }

/-- `init_population`: clamp `mutation_chance` to `MAX_MUTATION_CHANCE`,
panic (modelled as `Except.error` carrying the panic message) on
`gene_length <= 0`, `parent_count < 1` or `parent_count >
population_size`; otherwise build the population of `population_size`
copies of the all-`true` individual and randomize it. -/
def init_population (gene_length population_size parent_count : Nat)
    (mutation_chance : Nat) (multi_threaded : Bool) (rand : Nat → Nat → Nat) :
    Except String Population :=
  let mc := if mutation_chance > MAX_MUTATION_CHANCE then MAX_MUTATION_CHANCE
            else mutation_chance
  if gene_length ≤ 0 then
    Except.error "the gene length cannot be less than 1"
  else if parent_count < 1 then
    Except.error "parent count must be 1 or more"
  else if parent_count > population_size then
    Except.error "parent count cant be larger than population"
  else
    Except.ok ((Population.randomize_population
      { individuals := List.replicate population_size
          { gene_length := gene_length,
            genes := List.replicate gene_length true,
            fitness := 0 },
        population_size := population_size,
        parent_count := parent_count,
        mutation_chance := mc,
        multi_threaded := multi_threaded }) rand)

/-- Validity of a `Population` as produced by `init_population` and
maintained by `next_generation`: full size, and `1 ≤ parent_count ≤
population_size`. -/
def Population.valid (p : Population) : Prop :=
  p.individuals.length = p.population_size ∧
    1 ≤ p.parent_count ∧ p.parent_count ≤ p.population_size

/-- All individuals of `p` have gene length `g`, both in the
`gene_length` field and as the actual gene-vector length. -/
def Population.genesOk (p : Population) (g : Nat) : Prop :=
  ∀ ind ∈ p.individuals, ind.gene_length = g ∧ ind.genes.length = g

instance (p : Population) : Decidable p.valid :=
  inferInstanceAs (Decidable (_ ∧ _ ∧ _))

instance (p : Population) (g : Nat) : Decidable (p.genesOk g) :=
  List.decidableBAll _ p.individuals

/-- The value the `create_child` loop stores at gene position `i`:
the gene copied from the drawn parent, flipped when the mutation draw is
below the mutation chance. -/
def childGene (parents : List Individual) (mutation_chance : Nat)
    (pickR mutR : Nat → Nat) (i : Nat) : Bool :=
  if mutR i < mutation_chance then
    !((parents.getD (pickR i) default).genes.getD i false)
  else
    (parents.getD (pickR i) default).genes.getD i false

theorem foldl_range_succ {β : Type} (f : β → Nat → β) (b : β) (n : Nat) :
    (List.range (n + 1)).foldl f b = f ((List.range n).foldl f b) n := by
  rw [List.range_succ, List.foldl_append, List.foldl_cons, List.foldl_nil]

theorem getD_set_self {α : Type} (l : List α) (i : Nat) (v d : α) (h : i < l.length) :
    (l.set i v).getD i d = v := by
  simp [List.getD_eq_getElem?_getD, List.getElem?_set, h]

theorem getD_set_ne {α : Type} (l : List α) (i j : Nat) (v d : α) (h : j ≠ i) :
    (l.set i v).getD j d = l.getD j d := by
  simp [List.getD_eq_getElem?_getD, List.getElem?_set, Ne.symm h]

theorem getD_replicate {α : Type} (n i : Nat) (x d : α) (h : i < n) :
    (List.replicate n x).getD i d = x := by
  simp [List.getD_eq_getElem?_getD, List.getElem?_replicate, h]

theorem mutate_fields (ind : Individual) (i mc r : Nat) :
    (ind.mutate_at_index i mc r).gene_length = ind.gene_length ∧
    (ind.mutate_at_index i mc r).fitness = ind.fitness ∧
    (ind.mutate_at_index i mc r).genes.length = ind.genes.length := by
  unfold Individual.mutate_at_index
  split <;> simp

theorem mutate_getD_self (ind : Individual) (i mc r : Nat) (h : i < ind.genes.length) :
    (ind.mutate_at_index i mc r).genes.getD i false =
      if r < mc then !(ind.genes.getD i false) else ind.genes.getD i false := by
  unfold Individual.mutate_at_index
  by_cases hrm : r < mc
  · rw [if_pos hrm, if_pos hrm]
    exact getD_set_self _ _ _ _ h
  · rw [if_neg hrm, if_neg hrm]

theorem mutate_getD_ne (ind : Individual) (i mc r j : Nat) (h : j ≠ i) :
    (ind.mutate_at_index i mc r).genes.getD j false = ind.genes.getD j false := by
  unfold Individual.mutate_at_index
  by_cases hrm : r < mc
  · rw [if_pos hrm]
    exact getD_set_ne _ _ _ _ _ h
  · rw [if_neg hrm]

theorem childStep_fields (parents : List Individual) (mc : Nat) (pickR mutR : Nat → Nat)
    (ind : Individual) (i : Nat) :
    (childStep parents mc pickR mutR ind i).gene_length = ind.gene_length ∧
    (childStep parents mc pickR mutR ind i).fitness = ind.fitness ∧
    (childStep parents mc pickR mutR ind i).genes.length = ind.genes.length := by
  unfold childStep Individual.mutate_at_index
  split <;> simp

theorem childStep_getD_ne (parents : List Individual) (mc : Nat) (pickR mutR : Nat → Nat)
    (ind : Individual) (i j : Nat) (h : j ≠ i) :
    (childStep parents mc pickR mutR ind i).genes.getD j false = ind.genes.getD j false := by
  unfold childStep
  rw [mutate_getD_ne _ _ _ _ _ h]
  exact getD_set_ne _ _ _ _ _ h

theorem childStep_getD_self (parents : List Individual) (mc : Nat) (pickR mutR : Nat → Nat)
    (ind : Individual) (i : Nat) (h : i < ind.genes.length) :
    (childStep parents mc pickR mutR ind i).genes.getD i false =
      childGene parents mc pickR mutR i := by
  unfold childStep childGene
  rw [mutate_getD_self _ _ _ _ (by simpa using h), getD_set_self _ _ _ _ h]

theorem childStep_foldl_spec (parents : List Individual) (mc : Nat)
    (pickR mutR : Nat → Nat) (n : Nat) (b : Individual) :
    ((List.range n).foldl (childStep parents mc pickR mutR) b).gene_length = b.gene_length ∧
    ((List.range n).foldl (childStep parents mc pickR mutR) b).fitness = b.fitness ∧
    ((List.range n).foldl (childStep parents mc pickR mutR) b).genes.length = b.genes.length ∧
    ∀ i, i < n → i < b.genes.length →
      ((List.range n).foldl (childStep parents mc pickR mutR) b).genes.getD i false =
        childGene parents mc pickR mutR i := by
  induction n with
  | zero => simp
  | succ n ih =>
    obtain ⟨h1, h2, h3, h4⟩ := ih
    rw [foldl_range_succ]
    have hf := childStep_fields parents mc pickR mutR
      ((List.range n).foldl (childStep parents mc pickR mutR) b) n
    refine ⟨hf.1.trans h1, hf.2.1.trans h2, hf.2.2.trans h3, ?_⟩
    intro i hin hib
    rcases Nat.lt_succ_iff_lt_or_eq.mp hin with hlt | heq
    · rw [childStep_getD_ne _ _ _ _ _ _ _ (Nat.ne_of_lt hlt)]
      exact h4 i hlt hib
    · subst heq
      exact childStep_getD_self _ _ _ _ _ _ (h3 ▸ hib)

theorem create_child_spec (p : Population) (parents : List Individual)
    (pickR mutR : Nat → Nat) :
    (p.create_child parents pickR mutR).gene_length = parents.headI.gene_length ∧
    (p.create_child parents pickR mutR).fitness = 0 ∧
    (p.create_child parents pickR mutR).genes.length = parents.headI.gene_length ∧
    ∀ i, i < parents.headI.gene_length →
      (p.create_child parents pickR mutR).genes.getD i false =
        childGene parents p.mutation_chance pickR mutR i := by
  obtain ⟨h1, h2, h3, h4⟩ := childStep_foldl_spec parents p.mutation_chance pickR mutR
    parents.headI.gene_length
    { gene_length := parents.headI.gene_length,
      genes := List.replicate parents.headI.gene_length false,
      fitness := 0 }
  refine ⟨h1, h2, by simpa using h3, ?_⟩
  intro i hi
  exact h4 i hi (by simpa using hi)

theorem randStep_getD_ne (rand : Nat → Nat) (c : Individual) (i j : Nat) (h : j ≠ i) :
    (randStep rand c i).genes.getD j false = c.genes.getD j false := by
  unfold randStep
  split
  · exact getD_set_ne _ _ _ _ _ h
  · rfl

theorem randStep_foldl_spec (rand : Nat → Nat) (n : Nat) (b : Individual) :
    ((List.range n).foldl (randStep rand) b).gene_length = b.gene_length ∧
    ((List.range n).foldl (randStep rand) b).fitness = b.fitness ∧
    ((List.range n).foldl (randStep rand) b).genes.length = b.genes.length ∧
    (∀ i, n ≤ i →
      ((List.range n).foldl (randStep rand) b).genes.getD i false = b.genes.getD i false) ∧
    ∀ i, i < n → i < b.genes.length →
      ((List.range n).foldl (randStep rand) b).genes.getD i false =
        (if rand i = 0 then false else b.genes.getD i false) := by
  induction n with
  | zero => simp
  | succ n ih =>
    obtain ⟨h1, h2, h3, h4, h5⟩ := ih
    rw [foldl_range_succ]
    have hstep : ∀ c : Individual,
        (randStep rand c n).gene_length = c.gene_length ∧
        (randStep rand c n).fitness = c.fitness ∧
        (randStep rand c n).genes.length = c.genes.length := by
      intro c; unfold randStep; split <;> simp
    obtain ⟨hs1, hs2, hs3⟩ := hstep ((List.range n).foldl (randStep rand) b)
    refine ⟨hs1.trans h1, hs2.trans h2, hs3.trans h3, ?_, ?_⟩
    · intro i hni
      rw [randStep_getD_ne _ _ _ _ (by omega)]
      exact h4 i (by omega)
    · intro i hin hib
      rcases Nat.lt_succ_iff_lt_or_eq.mp hin with hlt | heq
      · rw [randStep_getD_ne _ _ _ _ (Nat.ne_of_lt hlt)]
        exact h5 i hlt hib
      · subst heq
        have hcur : ((List.range i).foldl (randStep rand) b).genes.getD i false =
            b.genes.getD i false := h4 i (Nat.le_refl i)
        unfold randStep
        split
        · exact getD_set_self _ _ _ _ (h3 ▸ hib)
        · exact hcur

theorem randomize_spec (ind : Individual) (rand : Nat → Nat) :
    (ind.randomize rand).gene_length = ind.gene_length ∧
    (ind.randomize rand).fitness = ind.fitness ∧
    (ind.randomize rand).genes.length = ind.gene_length ∧
    ∀ i, i < ind.gene_length →
      (ind.randomize rand).genes.getD i false = (if rand i = 0 then false else true) := by
  obtain ⟨h1, h2, h3, _, h5⟩ := randStep_foldl_spec rand ind.gene_length
    { ind with genes := List.replicate ind.gene_length true }
  refine ⟨h1, h2, by simpa using h3, ?_⟩
  intro i hi
  have := h5 i hi (by simpa using hi)
  rw [Individual.randomize, this, getD_replicate _ _ _ _ hi]

theorem popRandStep_getD_ne (rand : Nat → Nat → Nat) (l : List Individual) (i j : Nat)
    (h : j ≠ i) :
    (popRandStep rand l i).getD j default = l.getD j default := by
  unfold popRandStep
  exact getD_set_ne _ _ _ _ _ h

theorem popRandStep_getD_self (rand : Nat → Nat → Nat) (l : List Individual) (i : Nat)
    (h : i < l.length) :
    (popRandStep rand l i).getD i default = (l.getD i default).randomize (rand i) := by
  unfold popRandStep
  exact getD_set_self _ _ _ _ h

theorem popRand_foldl_spec (rand : Nat → Nat → Nat) (n : Nat) (l : List Individual) :
    ((List.range n).foldl (popRandStep rand) l).length = l.length ∧
    (∀ i, n ≤ i →
      ((List.range n).foldl (popRandStep rand) l).getD i default = l.getD i default) ∧
    ∀ i, i < n → i < l.length →
      ((List.range n).foldl (popRandStep rand) l).getD i default =
        (l.getD i default).randomize (rand i) := by
  induction n with
  | zero => simp
  | succ n ih =>
    obtain ⟨h1, h2, h3⟩ := ih
    rw [foldl_range_succ]
    have hlen : (popRandStep rand ((List.range n).foldl (popRandStep rand) l) n).length =
        ((List.range n).foldl (popRandStep rand) l).length := by
      unfold popRandStep; simp
    refine ⟨hlen.trans h1, ?_, ?_⟩
    · intro i hni
      rw [popRandStep_getD_ne _ _ _ _ (by omega)]
      exact h2 i (by omega)
    · intro i hin hil
      rcases Nat.lt_succ_iff_lt_or_eq.mp hin with hlt | heq
      · rw [popRandStep_getD_ne _ _ _ _ (Nat.ne_of_lt hlt)]
        exact h3 i hlt hil
      · subst heq
        have hcur : ((List.range i).foldl (popRandStep rand) l).getD i default =
            l.getD i default := h2 i (Nat.le_refl i)
        rw [popRandStep_getD_self _ _ _ (h1 ▸ hil), hcur]


theorem fitGe_iff (a b : Individual) : fitGe a b ↔ b.fitness ≤ a.fitness := by
  unfold fitGe Individual.cmp
  rw [ne_eq, Nat.compare_eq_gt]
  omega

instance : IsTotal Individual fitGe :=
  ⟨fun a b => by rw [fitGe_iff, fitGe_iff]; omega⟩

instance : IsTrans Individual fitGe :=
  ⟨fun a b c hab hbc => by
    rw [fitGe_iff] at hab hbc ⊢
    omega⟩

theorem sortDesc_perm (l : List Individual) : (sortDesc l).Perm l :=
  List.perm_insertionSort fitGe l

theorem sortDesc_sorted (l : List Individual) : (sortDesc l).Sorted fitGe :=
  List.sorted_insertionSort fitGe l

theorem sortDesc_length (l : List Individual) : (sortDesc l).length = l.length :=
  (sortDesc_perm l).length_eq

theorem batchSizes_length (chunk rem tc : Nat) : (batchSizes chunk rem tc).length = tc := by
  induction tc generalizing rem with
  | zero => rfl
  | succ tc ih =>
    unfold batchSizes
    by_cases h : tc = 0
    · simp [h]
    · simp [h, ih]

theorem batchSizes_sum_aux (chunk : Nat) :
    ∀ tc rem, (batchSizes chunk rem (tc + 1)).sum = rem := by
  intro tc
  induction tc with
  | zero =>
    intro rem
    have hstep : batchSizes chunk rem 1 =
        [if rem - (if rem < chunk then rem else chunk) > 0 then
            (if rem < chunk then rem else chunk) + (rem - (if rem < chunk then rem else chunk))
          else (if rem < chunk then rem else chunk)] := rfl
    rw [hstep]
    simp only [List.sum_cons, List.sum_nil]
    split_ifs <;> omega
  | succ tc ih =>
    intro rem
    have hstep : batchSizes chunk rem (tc + 1 + 1) =
        (if rem < chunk then rem else chunk) ::
          batchSizes chunk (rem - (if rem < chunk then rem else chunk)) (tc + 1) := rfl
    rw [hstep, List.sum_cons, ih]
    split_ifs <;> omega

theorem batchSizes_sum (chunk rem tc : Nat) (h : 1 ≤ tc) :
    (batchSizes chunk rem tc).sum = rem := by
  obtain ⟨tc2, rfl⟩ : ∃ tc2, tc = tc2 + 1 := ⟨tc - 1, by omega⟩
  exact batchSizes_sum_aux chunk tc2 rem

theorem flatMap_batch_length (bs : List Nat) (g : Nat × Nat → List Individual)
    (hg : ∀ wb, (g wb).length = wb.2) :
    ((bs.enum).flatMap g).length = bs.sum := by
  rw [List.length_flatMap]
  rw [show List.length ∘ g = Prod.snd from funext hg]
  rw [List.enum_map_snd]

theorem elites_length (p : Population) (hv : p.valid) :
    ((sortDesc p.individuals).take p.parent_count).length = p.parent_count := by
  rw [List.length_take, sortDesc_length, hv.1]
  exact Nat.min_eq_left hv.2.2

theorem next_generation_fields (p : Population) (cpus : Nat)
    (pickR mutR : Nat → Nat → Nat → Nat) :
    (p.next_generation cpus pickR mutR).population_size = p.population_size ∧
    (p.next_generation cpus pickR mutR).parent_count = p.parent_count ∧
    (p.next_generation cpus pickR mutR).mutation_chance = p.mutation_chance ∧
    (p.next_generation cpus pickR mutR).multi_threaded = p.multi_threaded := by
  unfold Population.next_generation
  split <;> simp

theorem next_generation_split (p : Population) (cpus : Nat)
    (pickR mutR : Nat → Nat → Nat → Nat) (hv : p.valid) (hc : 1 ≤ cpus) :
    ∃ children : List Individual,
      (p.next_generation cpus pickR mutR).individuals =
        (sortDesc p.individuals).take p.parent_count ++ children ∧
      children.length = p.population_size - p.parent_count ∧
      ∀ x ∈ children, ∃ a b,
        x = p.create_child ((sortDesc p.individuals).take p.parent_count) a b := by
  have hel := elites_length p hv
  unfold Population.next_generation
  by_cases hmt : p.multi_threaded
  · rw [if_neg (by simp [hmt])]
    refine ⟨_, rfl, ?_, ?_⟩
    · rw [flatMap_batch_length _ _ (fun wb => by simp), batchSizes_sum, hel]
      have hpop : 1 ≤ p.population_size := Nat.le_trans hv.2.1 hv.2.2
      split <;> omega
    · intro x hx
      rw [List.mem_flatMap] at hx
      obtain ⟨wb, _, hx⟩ := hx
      rw [List.mem_map] at hx
      obtain ⟨c, _, hx⟩ := hx
      exact ⟨_, _, hx.symm⟩
  · rw [if_pos (by simp [hmt])]
    refine ⟨_, rfl, ?_, ?_⟩
    · rw [List.length_map, List.length_range, hel]
    · intro x hx
      rw [List.mem_map] at hx
      obtain ⟨c, _, hx⟩ := hx
      exact ⟨_, _, hx.symm⟩

theorem elites_ne_nil (p : Population) (hv : p.valid) :
    (sortDesc p.individuals).take p.parent_count ≠ [] := by
  intro h
  have hl := elites_length p hv
  rw [h] at hl
  have h21 := hv.2.1
  simp at hl
  omega

theorem headI_mem_of_ne_nil {l : List Individual} (h : l ≠ []) : l.headI ∈ l := by
  cases l with
  | nil => exact absurd rfl h
  | cons a t => exact List.mem_cons_self a t

theorem getD_mem_of_lt (l : List Individual) (i : Nat) (h : i < l.length) :
    l.getD i default ∈ l := by
  rw [List.getD_eq_getElem l default h]
  exact List.getElem_mem h

theorem init_ok_spec (gl n k mc : Nat) (mt : Bool) (rand : Nat → Nat → Nat)
    (q : Population) (hq : init_population gl n k mc mt rand = Except.ok q) :
    q.population_size = n ∧ q.parent_count = k ∧
    q.mutation_chance = (if mc > MAX_MUTATION_CHANCE then MAX_MUTATION_CHANCE else mc) ∧
    q.multi_threaded = mt ∧
    q.individuals.length = n ∧
    (∀ ind ∈ q.individuals, ind.gene_length = gl ∧ ind.genes.length = gl) ∧
    1 ≤ gl ∧ 1 ≤ k ∧ k ≤ n := by
  simp only [init_population] at hq
  by_cases h1 : gl ≤ 0
  · rw [if_pos h1] at hq; cases hq
  rw [if_neg h1] at hq
  by_cases h2 : k < 1
  · rw [if_pos h2] at hq; cases hq
  rw [if_neg h2] at hq
  by_cases h3 : k > n
  · rw [if_pos h3] at hq; cases hq
  rw [if_neg h3] at hq
  injection hq with hq
  subst hq
  have hbase : (List.replicate n
      { gene_length := gl, genes := List.replicate gl true,
        fitness := 0 : Individual }).length = n := by simp
  obtain ⟨hl, _, hpt⟩ := popRand_foldl_spec rand n
    (List.replicate n
      { gene_length := gl, genes := List.replicate gl true, fitness := 0 })
  have hl2 : ((Population.randomize_population
      { individuals := List.replicate n
          { gene_length := gl, genes := List.replicate gl true, fitness := 0 },
        population_size := n, parent_count := k,
        mutation_chance := if mc > MAX_MUTATION_CHANCE then MAX_MUTATION_CHANCE else mc,
        multi_threaded := mt } rand).individuals).length = n := hl.trans hbase
  have hpt2 : ∀ i, i < n →
      ((Population.randomize_population
        { individuals := List.replicate n
            { gene_length := gl, genes := List.replicate gl true, fitness := 0 },
          population_size := n, parent_count := k,
          mutation_chance := if mc > MAX_MUTATION_CHANCE then MAX_MUTATION_CHANCE else mc,
          multi_threaded := mt } rand).individuals).getD i default =
        ((List.replicate n
          { gene_length := gl, genes := List.replicate gl true,
            fitness := 0 : Individual }).getD i default).randomize (rand i) :=
    fun i hi => hpt i hi (by rw [hbase]; exact hi)
  refine ⟨rfl, rfl, rfl, rfl, hl2, ?_, by omega, by omega, by omega⟩
  intro ind hind
  rw [List.mem_iff_getElem] at hind
  obtain ⟨i, hi, hget⟩ := hind
  have hin : i < n := by rw [hl2] at hi; exact hi
  have hgd := hpt2 i hin
  rw [List.getD_eq_getElem _ default hi, hget,
      getD_replicate _ _ _ _ hin] at hgd
  obtain ⟨hr1, _, hr3, _⟩ := randomize_spec
    { gene_length := gl, genes := List.replicate gl true, fitness := 0 } (rand i)
  rw [hgd]
  exact ⟨hr1, hr3⟩

/-- Claim C4: `mutate_at_index` flips the gene at `index` exactly when the
uniform draw from `[0,100)` is below `mutation_chance`, changes no other
gene, and leaves the length, fitness and gene-length field untouched; with
`mutation_chance = 100` the gene is always negated (any draw in `[0,100)`
is below 100), and with `mutation_chance = 0` nothing ever changes. -/
theorem C4_mutate_flip_iff_draw_below_chance (ind : Individual) (index mc rand : Nat)
    (h : index < ind.genes.length) :
    ((ind.mutate_at_index index mc rand).genes.getD index false =
      (if rand < mc then !(ind.genes.getD index false) else ind.genes.getD index false)) ∧
    (∀ j, j ≠ index →
      (ind.mutate_at_index index mc rand).genes.getD j false = ind.genes.getD j false) ∧
    (ind.mutate_at_index index mc rand).genes.length = ind.genes.length ∧
    (ind.mutate_at_index index mc rand).fitness = ind.fitness ∧
    (ind.mutate_at_index index mc rand).gene_length = ind.gene_length ∧
    (rand < 100 → mc = 100 →
      (ind.mutate_at_index index mc rand).genes.getD index false =
        !(ind.genes.getD index false)) ∧
    (mc = 0 → ind.mutate_at_index index mc rand = ind) := by
  have hm := mutate_fields ind index mc rand
  refine ⟨mutate_getD_self _ _ _ _ h, fun j hj => mutate_getD_ne _ _ _ _ _ hj,
    hm.2.2, hm.2.1, hm.1, ?_, ?_⟩
  · intro hr hmc
    rw [mutate_getD_self _ _ _ _ h, if_pos (by omega)]
  · intro hmc
    unfold Individual.mutate_at_index
    rw [if_neg (by omega)]

/-- Witness for C4: concrete individual `[true, false]`, index 0; draw 7
with chance 100 negates the gene, chance 0 leaves the individual intact. -/
theorem C4_witness :
    ((Individual.mk 2 [true, false] 5).mutate_at_index 0 100 7).genes.getD 0 false =
      !((Individual.mk 2 [true, false] 5).genes.getD 0 false) ∧
    (Individual.mk 2 [true, false] 5).mutate_at_index 0 0 7 =
      Individual.mk 2 [true, false] 5 :=
  ⟨(C4_mutate_flip_iff_draw_below_chance (Individual.mk 2 [true, false] 5) 0 100 7
      (by decide)).2.2.2.2.2.1 (by decide) rfl,
   (C4_mutate_flip_iff_draw_below_chance (Individual.mk 2 [true, false] 5) 0 0 7
      (by decide)).2.2.2.2.2.2 rfl⟩

/-- Claim C7: equality and ordering of `Individual`s is determined solely
by the fitness values — `eq` holds iff the fitness values are equal, `cmp`
is exactly the comparison of the fitness values (so `lt`/`gt` iff the
fitness values compare so), `partial_cmp` is `Some (cmp)`, and replacing
the genes (and gene-length) of either side never changes the outcome, so
two genetically distinct individuals with equal fitness compare equal. -/
theorem C7_comparisons_by_fitness_only (a b : Individual) :
    (a.beq b = true ↔ a.fitness = b.fitness) ∧
    (a.cmp b = Ordering.lt ↔ a.fitness < b.fitness) ∧
    (a.cmp b = Ordering.gt ↔ b.fitness < a.fitness) ∧
    (a.cmp b = Ordering.eq ↔ a.fitness = b.fitness) ∧
    a.pcmp b = some (a.cmp b) ∧
    (∀ gl1 gs1 gl2 gs2,
      (Individual.mk gl1 gs1 a.fitness).beq (Individual.mk gl2 gs2 b.fitness) = a.beq b ∧
      (Individual.mk gl1 gs1 a.fitness).cmp (Individual.mk gl2 gs2 b.fitness) = a.cmp b) := by
  refine ⟨?_, ?_, ?_, ?_, rfl, fun gl1 gs1 gl2 gs2 => ⟨rfl, rfl⟩⟩
  · unfold Individual.beq
    simp
  · exact Nat.compare_eq_lt
  · exact Nat.compare_eq_gt
  · exact Nat.compare_eq_eq

/-- Claim C6: `init_population` aborts (with the source's panic message)
exactly when `gene_length < 1`, `parent_count < 1` or
`parent_count > population_size`, and returns a population on every valid
combination. -/
theorem C6_init_validation (gl n k mc : Nat) (mt : Bool) (rand : Nat → Nat → Nat) :
    (gl = 0 → init_population gl n k mc mt rand =
      Except.error "the gene length cannot be less than 1") ∧
    (1 ≤ gl → k = 0 → init_population gl n k mc mt rand =
      Except.error "parent count must be 1 or more") ∧
    (1 ≤ gl → 1 ≤ k → n < k → init_population gl n k mc mt rand =
      Except.error "parent count cant be larger than population") ∧
    (1 ≤ gl → 1 ≤ k → k ≤ n → ∃ q, init_population gl n k mc mt rand = Except.ok q) := by
  refine ⟨?_, ?_, ?_, ?_⟩
  · intro h
    subst h
    rfl
  · intro h1 h2
    simp only [init_population]
    rw [if_neg (by omega), if_pos (by omega)]
  · intro h1 h2 h3
    simp only [init_population]
    rw [if_neg (by omega), if_neg (by omega), if_pos (by omega)]
  · intro h1 h2 h3
    simp only [init_population]
    rw [if_neg (by omega), if_neg (by omega), if_neg (by omega)]
    exact ⟨_, rfl⟩

/-- Witness for C6: the three abort cases and one valid construction, at
concrete arguments. -/
theorem C6_witness :
    init_population 0 4 2 10 false (fun _ _ => 0) =
      Except.error "the gene length cannot be less than 1" ∧
    init_population 8 4 0 10 false (fun _ _ => 0) =
      Except.error "parent count must be 1 or more" ∧
    init_population 8 4 5 10 false (fun _ _ => 0) =
      Except.error "parent count cant be larger than population" ∧
    (init_population 1 1 1 0 false (fun _ _ => 0)).isOk = true := by
  refine ⟨(C6_init_validation 0 4 2 10 false _).1 rfl,
    (C6_init_validation 8 4 0 10 false _).2.1 (by decide) rfl,
    (C6_init_validation 8 4 5 10 false _).2.2.1 (by decide) (by decide) (by decide),
    ?_⟩
  obtain ⟨q, hq⟩ :=
    (C6_init_validation 1 1 1 0 false _).2.2.2 (by decide) (by decide) (by decide)
  rw [hq]
  rfl

/-- Claim C1: a population built by `init_population` has exactly
`population_size` individuals, and `next_generation` (in either mode, the
`multi_threaded` flag of `p` being arbitrary) restores the population to
exactly `population_size` individuals and preserves validity, so the
invariant holds after every call. -/
theorem C1_population_size_invariant (gl n k mc : Nat) (mt : Bool)
    (rand : Nat → Nat → Nat) (q : Population)
    (hq : init_population gl n k mc mt rand = Except.ok q)
    (p : Population) (hv : p.valid) (cpus : Nat) (hc : 1 ≤ cpus)
    (pickR mutR : Nat → Nat → Nat → Nat) :
    q.individuals.length = q.population_size ∧
    (p.next_generation cpus pickR mutR).individuals.length = p.population_size ∧
    (p.next_generation cpus pickR mutR).valid := by
  obtain ⟨hn, _, _, _, hlen, _, _⟩ := init_ok_spec gl n k mc mt rand q hq
  obtain ⟨children, he, hclen, _⟩ := next_generation_split p cpus pickR mutR hv hc
  have hsz : (p.next_generation cpus pickR mutR).individuals.length = p.population_size := by
    rw [he, List.length_append, elites_length p hv, hclen]
    have := hv.2.1
    have := hv.2.2
    omega
  obtain ⟨hf1, hf2, _, _⟩ := next_generation_fields p cpus pickR mutR
  refine ⟨by rw [hlen, hn], hsz, ?_, ?_, ?_⟩
  · rw [hsz, hf1]
  · rw [hf2]; exact hv.2.1
  · rw [hf1, hf2]; exact hv.2.2

/-- Witness for C1: a concrete `init_population` result and a concrete
parallel-mode `next_generation` call. -/
theorem C1_witness :
    (Population.mk
      [Individual.mk 2 [false, false] 0, Individual.mk 2 [false, false] 0,
        Individual.mk 2 [false, false] 0] 3 2 0 false).individuals.length =
      (Population.mk
        [Individual.mk 2 [false, false] 0, Individual.mk 2 [false, false] 0,
          Individual.mk 2 [false, false] 0] 3 2 0 false).population_size ∧
    ((Population.mk [Individual.mk 1 [true] 1, Individual.mk 1 [false] 2] 2 1 0
        true).next_generation 2 (fun _ _ _ => 0) (fun _ _ _ => 0)).individuals.length =
      (Population.mk [Individual.mk 1 [true] 1, Individual.mk 1 [false] 2] 2 1 0
        true).population_size ∧
    ((Population.mk [Individual.mk 1 [true] 1, Individual.mk 1 [false] 2] 2 1 0
        true).next_generation 2 (fun _ _ _ => 0) (fun _ _ _ => 0)).valid :=
  C1_population_size_invariant 2 3 2 0 false (fun _ _ => 0)
    (Population.mk
      [Individual.mk 2 [false, false] 0, Individual.mk 2 [false, false] 0,
        Individual.mk 2 [false, false] 0] 3 2 0 false)
    rfl
    (Population.mk [Individual.mk 1 [true] 1, Individual.mk 1 [false] 2] 2 1 0 true)
    (by decide) 2 (by decide) (fun _ _ _ => 0) (fun _ _ _ => 0)

/-- Claim C2: after `next_generation` the first `parent_count` individuals
of the new population are exactly the `parent_count` best (by pre-call
fitness) individuals — the descending sort's prefix — taken unchanged
(same gene sequences, being literally a sub-multiset of the pre-call
population); every individual they displaced has fitness no larger; and
the remainder of the new population consists of newly created children,
all with fitness 0. -/
theorem C2_elitism (p : Population) (hv : p.valid) (cpus : Nat) (hc : 1 ≤ cpus)
    (pickR mutR : Nat → Nat → Nat → Nat) :
    (p.next_generation cpus pickR mutR).individuals.take p.parent_count =
      (sortDesc p.individuals).take p.parent_count ∧
    List.Subperm ((sortDesc p.individuals).take p.parent_count) p.individuals ∧
    (∀ e ∈ (sortDesc p.individuals).take p.parent_count,
      ∀ d ∈ (sortDesc p.individuals).drop p.parent_count, d.fitness ≤ e.fitness) ∧
    (∀ c ∈ (p.next_generation cpus pickR mutR).individuals.drop p.parent_count,
      c.fitness = 0) := by
  obtain ⟨children, he, hclen, hmem⟩ := next_generation_split p cpus pickR mutR hv hc
  have hel := elites_length p hv
  refine ⟨?_, ?_, ?_, ?_⟩
  · rw [he]
    exact List.take_left' hel
  · exact ((List.take_sublist _ _).subperm).trans (sortDesc_perm p.individuals).subperm
  · intro e hee d hd
    exact (fitGe_iff e d).mp
      ((sortDesc_sorted p.individuals).rel_of_mem_take_of_mem_drop hee hd)
  · intro c hcmem
    rw [he, List.drop_left' hel] at hcmem
    obtain ⟨a, b, rfl⟩ := hmem c hcmem
    exact (create_child_spec p _ a b).2.1

/-- Witness for C2: concrete sequential population of two individuals with
`parent_count = 1`. -/
theorem C2_witness :
    ((Population.mk [Individual.mk 1 [true] 1, Individual.mk 1 [false] 2] 2 1 0
        false).next_generation 1 (fun _ _ _ => 0) (fun _ _ _ => 0)).individuals.take 1 =
      (sortDesc [Individual.mk 1 [true] 1, Individual.mk 1 [false] 2]).take 1 ∧
    List.Subperm
      ((sortDesc [Individual.mk 1 [true] 1, Individual.mk 1 [false] 2]).take 1)
      [Individual.mk 1 [true] 1, Individual.mk 1 [false] 2] ∧
    (∀ e ∈ (sortDesc [Individual.mk 1 [true] 1, Individual.mk 1 [false] 2]).take 1,
      ∀ d ∈ (sortDesc [Individual.mk 1 [true] 1, Individual.mk 1 [false] 2]).drop 1,
        d.fitness ≤ e.fitness) ∧
    (∀ c ∈ ((Population.mk [Individual.mk 1 [true] 1, Individual.mk 1 [false] 2] 2 1 0
        false).next_generation 1 (fun _ _ _ => 0) (fun _ _ _ => 0)).individuals.drop 1,
      c.fitness = 0) :=
  C2_elitism
    (Population.mk [Individual.mk 1 [true] 1, Individual.mk 1 [false] 2] 2 1 0 false)
    (by decide) 1 (by decide) (fun _ _ _ => 0) (fun _ _ _ => 0)

/-- Claim C3: a child built by `create_child` from a nonempty elite set of
uniform gene length has fitness 0, the parents' gene length, and at every
position `i` carries the gene of the drawn parent `pickR i` at that same
position, mutated immediately after the copy (flipped exactly when the
mutation draw is below the chance); with `mutation_chance = 0` every child
gene equals some elite parent's gene at that position. -/
theorem C3_uniform_crossover (p : Population) (parents : List Individual) (g : Nat)
    (pickR mutR : Nat → Nat)
    (hne : parents ≠ [])
    (hg : ∀ q ∈ parents, q.gene_length = g ∧ q.genes.length = g)
    (hpick : ∀ i, pickR i < parents.length) :
    (p.create_child parents pickR mutR).fitness = 0 ∧
    (p.create_child parents pickR mutR).gene_length = g ∧
    (p.create_child parents pickR mutR).genes.length = g ∧
    (∀ i, i < g → (p.create_child parents pickR mutR).genes.getD i false =
      (if mutR i < p.mutation_chance
        then !((parents.getD (pickR i) default).genes.getD i false)
        else (parents.getD (pickR i) default).genes.getD i false)) ∧
    (p.mutation_chance = 0 → ∀ i, i < g →
      ∃ q ∈ parents, (p.create_child parents pickR mutR).genes.getD i false =
        q.genes.getD i false) := by
  have hhead : parents.headI.gene_length = g := (hg _ (headI_mem_of_ne_nil hne)).1
  obtain ⟨h1, h2, h3, h4⟩ := create_child_spec p parents pickR mutR
  rw [hhead] at h1 h3 h4
  refine ⟨h2, h1, h3, ?_, ?_⟩
  · intro i hi
    rw [h4 i hi]
    rfl
  · intro hmc i hi
    refine ⟨parents.getD (pickR i) default, getD_mem_of_lt _ _ (hpick i), ?_⟩
    rw [h4 i hi]
    unfold childGene
    rw [hmc, if_neg (by omega)]

/-- Witness for C3: two one-gene parents, the pick oracle always choosing
parent 1, mutation chance 0 and draw 50 — the child copies parent 1's gene
unmutated and has fitness 0. -/
theorem C3_witness :
    ((Population.mk [] 0 0 0 false).create_child
      [Individual.mk 1 [true] 0, Individual.mk 1 [false] 0]
      (fun _ => 1) (fun _ => 50)).fitness = 0 ∧
    ((Population.mk [] 0 0 0 false).create_child
      [Individual.mk 1 [true] 0, Individual.mk 1 [false] 0]
      (fun _ => 1) (fun _ => 50)).genes.getD 0 false = false := by
  have h := C3_uniform_crossover (Population.mk [] 0 0 0 false)
    [Individual.mk 1 [true] 0, Individual.mk 1 [false] 0] 1
    (fun _ => 1) (fun _ => 50) (by decide) (by decide)
    (by intro j; show (1 : Nat) < 2; decide)
  refine ⟨h.1, ?_⟩
  rw [h.2.2.2.1 0 (by decide)]
  decide

/-- Claim C8: every individual of an `init_population` result has gene
vector length equal to `gene_length` (in field and in fact);
`next_generation` preserves this invariant for any uniform gene length `g`
(children inherit the parents' gene length); and `randomize` and
`mutate_at_index` never change the length of a gene vector (for
`randomize`, given the invariant `genes.length = gene_length` that every
individual of a valid population satisfies). -/
theorem C8_gene_length_invariant (gl n k mc : Nat) (mt : Bool)
    (rand : Nat → Nat → Nat) (q : Population)
    (hq : init_population gl n k mc mt rand = Except.ok q)
    (p : Population) (g : Nat) (hv : p.valid) (hg : p.genesOk g)
    (cpus : Nat) (hc : 1 ≤ cpus) (pickR mutR : Nat → Nat → Nat → Nat)
    (ind : Individual) (hind : ind.genes.length = ind.gene_length)
    (i mcm r : Nat) (rnd : Nat → Nat) :
    q.genesOk gl ∧
    (p.next_generation cpus pickR mutR).genesOk g ∧
    (ind.randomize rnd).genes.length = ind.genes.length ∧
    (ind.mutate_at_index i mcm r).genes.length = ind.genes.length := by
  refine ⟨?_, ?_, ?_, (mutate_fields ind i mcm r).2.2⟩
  · exact (init_ok_spec gl n k mc mt rand q hq).2.2.2.2.2.1
  · obtain ⟨children, he, _, hmem⟩ := next_generation_split p cpus pickR mutR hv hc
    intro x hx
    rw [he, List.mem_append] at hx
    rcases hx with hx | hx
    · exact hg x ((sortDesc_perm p.individuals).mem_iff.mp (List.mem_of_mem_take hx))
    · obtain ⟨a, b, rfl⟩ := hmem x hx
      obtain ⟨h1, _, h3, _⟩ := create_child_spec p _ a b
      have hne := elites_ne_nil p hv
      have hhead : ((sortDesc p.individuals).take p.parent_count).headI.gene_length = g := by
        have hm := headI_mem_of_ne_nil hne
        exact (hg _ ((sortDesc_perm p.individuals).mem_iff.mp (List.mem_of_mem_take hm))).1
      exact ⟨h1.trans hhead, h3.trans hhead⟩
  · rw [(randomize_spec ind rnd).2.2.1, hind]

/-- Witness for C8: concrete init result, a concrete sequential
`next_generation`, and a concrete individual. -/
theorem C8_witness :
    (Population.mk
      [Individual.mk 2 [false, false] 0, Individual.mk 2 [false, false] 0,
        Individual.mk 2 [false, false] 0] 3 2 0 false).genesOk 2 ∧
    ((Population.mk [Individual.mk 1 [true] 1, Individual.mk 1 [false] 2] 2 1 0
        false).next_generation 1 (fun _ _ _ => 0) (fun _ _ _ => 0)).genesOk 1 ∧
    ((Individual.mk 2 [true, false] 5).randomize (fun _ => 1)).genes.length =
      (Individual.mk 2 [true, false] 5).genes.length ∧
    ((Individual.mk 2 [true, false] 5).mutate_at_index 0 100 7).genes.length =
      (Individual.mk 2 [true, false] 5).genes.length :=
  C8_gene_length_invariant 2 3 2 0 false (fun _ _ => 0)
    (Population.mk
      [Individual.mk 2 [false, false] 0, Individual.mk 2 [false, false] 0,
        Individual.mk 2 [false, false] 0] 3 2 0 false)
    rfl
    (Population.mk [Individual.mk 1 [true] 1, Individual.mk 1 [false] 2] 2 1 0 false)
    1 (by decide) (by decide) 1 (by decide) (fun _ _ _ => 0) (fun _ _ _ => 0)
    (Individual.mk 2 [true, false] 5) (by decide) 0 100 7 (fun _ => 1)

/-- Claim C9: `print(count)` sorts the population descending by fitness
(the new state is exactly the sorted list — a permutation of the old, so
no individual's genes or fitness are modified), leaves every configuration
field unchanged, and its output is exactly the one-line summary followed by
the display representations of the top `min(count, population_size)`
individuals; there is no other effect and no return value (the embedding
returns only the state and the printed lines). -/
theorem C9_print_effect (p : Population) (count : Nat) :
    ((p.print count).1.individuals).Perm p.individuals ∧
    (p.print count).1.individuals = sortDesc p.individuals ∧
    (p.print count).1.individuals.Sorted fitGe ∧
    (p.print count).1.population_size = p.population_size ∧
    (p.print count).1.parent_count = p.parent_count ∧
    (p.print count).1.mutation_chance = p.mutation_chance ∧
    (p.print count).1.multi_threaded = p.multi_threaded ∧
    (p.print count).2 = p.summaryLine ::
      (List.range (min count p.population_size)).map
        (fun i => ((sortDesc p.individuals).getD i default).display) ∧
    (p.print count).2.length = 1 + min count p.population_size := by
  have hmin : (if count > p.population_size then p.population_size else count)
      = min count p.population_size := by
    split <;> omega
  have hlines : (p.print count).2 = p.summaryLine ::
      (List.range (min count p.population_size)).map
        (fun i => ((sortDesc p.individuals).getD i default).display) := by
    simp only [Population.print]
    rw [hmin]
  refine ⟨sortDesc_perm p.individuals, rfl, sortDesc_sorted p.individuals,
    rfl, rfl, rfl, rfl, hlines, ?_⟩
  rw [hlines]
  simp
  omega

/-- Claim C10: with `parent_count = population_size`, `next_generation`
creates zero children in either mode and merely re-sorts: the new
individual list is exactly the descending sort of the old one (hence a
permutation — same multiset of gene vectors and fitness values), and every
configuration field is unchanged. -/
theorem C10_no_children_when_parents_fill (p : Population) (hv : p.valid)
    (hk : p.parent_count = p.population_size) (cpus : Nat) (hc : 1 ≤ cpus)
    (pickR mutR : Nat → Nat → Nat → Nat) :
    (p.next_generation cpus pickR mutR).individuals = sortDesc p.individuals ∧
    (p.next_generation cpus pickR mutR).individuals.Perm p.individuals ∧
    (p.next_generation cpus pickR mutR).individuals.Sorted fitGe ∧
    (p.next_generation cpus pickR mutR).individuals.length = p.population_size ∧
    (p.next_generation cpus pickR mutR).population_size = p.population_size ∧
    (p.next_generation cpus pickR mutR).parent_count = p.parent_count ∧
    (p.next_generation cpus pickR mutR).mutation_chance = p.mutation_chance ∧
    (p.next_generation cpus pickR mutR).multi_threaded = p.multi_threaded := by
  obtain ⟨children, he, hclen, _⟩ := next_generation_split p cpus pickR mutR hv hc
  have hch : children = [] := List.eq_nil_of_length_eq_zero (by rw [hclen, hk]; omega)
  have htake : (sortDesc p.individuals).take p.parent_count = sortDesc p.individuals :=
    List.take_of_length_le (by rw [sortDesc_length, hv.1, hk])
  have hmain : (p.next_generation cpus pickR mutR).individuals = sortDesc p.individuals := by
    rw [he, hch, List.append_nil, htake]
  obtain ⟨hf1, hf2, hf3, hf4⟩ := next_generation_fields p cpus pickR mutR
  refine ⟨hmain, hmain ▸ sortDesc_perm p.individuals, hmain ▸ sortDesc_sorted p.individuals,
    ?_, hf1, hf2, hf3, hf4⟩
  rw [hmain, sortDesc_length, hv.1]

/-- Witness for C10: a two-individual parallel-mode population with
`parent_count = population_size = 2`. -/
theorem C10_witness :
    ((Population.mk [Individual.mk 1 [true] 1, Individual.mk 1 [false] 2] 2 2 5
        true).next_generation 2 (fun _ _ _ => 0) (fun _ _ _ => 0)).individuals =
      sortDesc [Individual.mk 1 [true] 1, Individual.mk 1 [false] 2] ∧
    ((Population.mk [Individual.mk 1 [true] 1, Individual.mk 1 [false] 2] 2 2 5
        true).next_generation 2 (fun _ _ _ => 0) (fun _ _ _ => 0)).individuals.Perm
      [Individual.mk 1 [true] 1, Individual.mk 1 [false] 2] ∧
    ((Population.mk [Individual.mk 1 [true] 1, Individual.mk 1 [false] 2] 2 2 5
        true).next_generation 2 (fun _ _ _ => 0) (fun _ _ _ => 0)).mutation_chance = 5 :=
  ⟨(C10_no_children_when_parents_fill
      (Population.mk [Individual.mk 1 [true] 1, Individual.mk 1 [false] 2] 2 2 5 true)
      (by decide) rfl 2 (by decide) (fun _ _ _ => 0) (fun _ _ _ => 0)).1,
   (C10_no_children_when_parents_fill
      (Population.mk [Individual.mk 1 [true] 1, Individual.mk 1 [false] 2] 2 2 5 true)
      (by decide) rfl 2 (by decide) (fun _ _ _ => 0) (fun _ _ _ => 0)).2.1,
   (C10_no_children_when_parents_fill
      (Population.mk [Individual.mk 1 [true] 1, Individual.mk 1 [false] 2] 2 2 5 true)
      (by decide) rfl 2 (by decide) (fun _ _ _ => 0) (fun _ _ _ => 0)).2.2.2.2.2.2.1⟩

/-- Counterexample to claim C5 as stated: the code's chunk size is
`population_size / thread_count`, not `children_needed / thread_count`.
With `population_size = 10`, `parent_count = 8` (so `children_needed = 2`)
and 2 workers, the code assigns batches `[2, 0]` (chunk `10 / 2 = 5`,
worker 0 takes `min(2, 5) = 2`, worker 1 gets nothing), while the spec's
`children_needed / worker_count` formula with the remainder on the last
worker would give `[1, 1]`.  Both sum to 2. -/
theorem C5_counterexample :
    batchSizes (10 / 2) 2 2 = [2, 0] ∧
    batchSizesSpec 2 2 = [1, 1] ∧
    batchSizes (10 / 2) 2 2 ≠ batchSizesSpec 2 2 := by
  decide

/-- Claim C5 as amended: the worker count is
`min(available parallelism, population_size)`; the chunk is
`population_size / worker_count` (not `children_needed / worker_count`);
each worker in turn takes `min(remaining, chunk)` and the last worker
absorbs any remainder, so there is one batch per worker and the batch
sizes sum to exactly `children_needed = population_size - parent_count`
regardless of divisibility or worker count; hence exactly
`children_needed` children are produced in either mode. -/
theorem C5_amended_batch_partitioning (p : Population) (hv : p.valid)
    (cpus : Nat) (hc : 1 ≤ cpus) (pickR mutR : Nat → Nat → Nat → Nat) :
    (if cpus ≥ p.population_size then p.population_size else cpus) =
      min cpus p.population_size ∧
    (batchSizes (p.population_size / min cpus p.population_size)
        (p.population_size - p.parent_count) (min cpus p.population_size)).length =
      min cpus p.population_size ∧
    (batchSizes (p.population_size / min cpus p.population_size)
        (p.population_size - p.parent_count) (min cpus p.population_size)).sum =
      p.population_size - p.parent_count ∧
    ((p.next_generation cpus pickR mutR).individuals.drop p.parent_count).length =
      p.population_size - p.parent_count := by
  have hpop : 1 ≤ p.population_size := Nat.le_trans hv.2.1 hv.2.2
  obtain ⟨children, he, hclen, _⟩ := next_generation_split p cpus pickR mutR hv hc
  refine ⟨by split <;> omega, batchSizes_length _ _ _,
    batchSizes_sum _ _ _ (by omega), ?_⟩
  rw [he, List.drop_left' (elites_length p hv), hclen]

/-- Witness for the amended C5: `population_size = 10`, `parent_count = 8`,
2 cpus — the code's batches `[2, 0]` still sum to the 2 children needed,
and the parallel `next_generation` produces exactly 2 children. -/
theorem C5_amended_witness :
    (batchSizes (10 / min 2 10) (10 - 8) (min 2 10)).sum = 10 - 8 ∧
    (((Population.mk
        [Individual.mk 1 [true] 10, Individual.mk 1 [false] 9,
          Individual.mk 1 [true] 8, Individual.mk 1 [false] 7,
          Individual.mk 1 [true] 6, Individual.mk 1 [false] 5,
          Individual.mk 1 [true] 4, Individual.mk 1 [false] 3,
          Individual.mk 1 [true] 2, Individual.mk 1 [false] 1] 10 8 0
        true).next_generation 2 (fun _ _ _ => 0)
          (fun _ _ _ => 0)).individuals.drop 8).length = 10 - 8 :=
  ⟨(C5_amended_batch_partitioning
      (Population.mk
        [Individual.mk 1 [true] 10, Individual.mk 1 [false] 9,
          Individual.mk 1 [true] 8, Individual.mk 1 [false] 7,
          Individual.mk 1 [true] 6, Individual.mk 1 [false] 5,
          Individual.mk 1 [true] 4, Individual.mk 1 [false] 3,
          Individual.mk 1 [true] 2, Individual.mk 1 [false] 1] 10 8 0 true)
      (by decide) 2 (by decide) (fun _ _ _ => 0) (fun _ _ _ => 0)).2.2.1,
   (C5_amended_batch_partitioning
      (Population.mk
        [Individual.mk 1 [true] 10, Individual.mk 1 [false] 9,
          Individual.mk 1 [true] 8, Individual.mk 1 [false] 7,
          Individual.mk 1 [true] 6, Individual.mk 1 [false] 5,
          Individual.mk 1 [true] 4, Individual.mk 1 [false] 3,
          Individual.mk 1 [true] 2, Individual.mk 1 [false] 1] 10 8 0 true)
      (by decide) 2 (by decide) (fun _ _ _ => 0) (fun _ _ _ => 0)).2.2.2⟩

end GA
